import Mathlib

/-!
Verification of the zos-rs storage / flist subsystem against its
natural-language specification.

The definitions below are a shallow embedding of the Rust sources:

* `Usage.enoughFor`        — src/storage/mod.rs, `Usage::enough_for`
* path model + `mountpath` — src/flist/utils.rs, `mountpath` (Rust `Path`
  semantics: comparison and `parent()` act on syntactic components)
* `parserReader`           — src/storage/mount.rs, `parser_reader`
* `downloadFlist`/`saveFlist` — src/flist/utils.rs
* `volumeUsage`            — src/storage/pool/btrfs.rs, `BtrfsVolume::usage`
* `PoolST`/`intoUpP`/`intoDownP` — src/storage/pool/mod.rs, `Pool`
* manager model (`allocate`, `volumeCreate`, `deviceAllocate`)
  — src/storage/manager/mod.rs (generic over the `UpPool`/`DownPool`
  traits; a pool is abstracted by its name, declared size, usage,
  volume list, up/down state and whether a bring-up attempt succeeds)
* `cleanUnusedMounts`      — src/flist/mounts.rs, `clean_unused_mounts`

Machine integers (`Unit` = u64 in the source) are modelled as `Nat`; the
one place where overflow could matter (`enough_for`'s addition) wraps
explicitly modulo `2 ^ 64`.  Fallible external I/O (syscalls, process
execution, HTTP) is modelled as the happy path unless the surrounding
code inspects the failure, in which case the outcome is an explicit
oracle (for example `MPool.upOk` for a pool bring-up attempt).
-/

/-- Decidable equality for `Except`, for evaluating results on concrete
inputs. -/
instance {e a : Type} [DecidableEq e] [DecidableEq a] : DecidableEq (Except e a) :=
  fun x y =>
    match x, y with
    | .ok v, .ok w => if h : v = w then isTrue (by rw [h]) else isFalse (by simp [h])
    | .error v, .error w => if h : v = w then isTrue (by rw [h]) else isFalse (by simp [h])
    | .ok _, .error _ => isFalse (by simp)
    | .error _, .ok _ => isFalse (by simp)

/-- 2 ^ 64, the modulus of the source's `Unit = u64` arithmetic. -/
def U64SIZE : Nat := 2 ^ 64

/-- `Usage` from src/storage/mod.rs: total capacity and consumed bytes. -/
structure Usage where
  size : Nat
  used : Nat
deriving DecidableEq, Repr

/-- `Usage::enough_for` from src/storage/mod.rs: `self.used + size < self.size`
with u64 (wrapping) addition. -/
def Usage.enoughFor (u : Usage) (size : Nat) : Bool :=
  (u.used + size) % U64SIZE < u.size

/-! ## Rust `Path` model

Rust compares `Path`s by their normal components: empty components and
non-leading `.` components are dropped, `..` is kept.  We model a path as
its component list plus an absolute flag.  (Leading `.` components, which
Rust keeps for relative paths, do not occur in any input considered
here.) -/

/-- Split a character list at every character satisfying the predicate
(kernel-computable counterpart of `String.split`; empty items kept). -/
def splitPred (p : Char → Bool) : List Char → List (List Char)
  | [] => [[]]
  | c :: rest =>
    match splitPred p rest with
    | [] => [[]]
    | w :: ws => if p c then [] :: w :: ws else (c :: w) :: ws

/-- Split a character list on a separator character (counterpart of
`String.splitOn` for a one-character separator). -/
def splitChar (sep : Char) (cs : List Char) : List (List Char) :=
  splitPred (fun c => c == sep) cs

/-- Normal components of a path string: split on `/`, drop empty and `.`
components (Rust `Path::components`, for paths without a leading `.`). -/
def pathComps (s : String) : List String :=
  ((splitChar '/' s.data).map String.mk).filter (fun c => c != "" && c != ".")

/-- Whether a path string is absolute. -/
def pathIsAbs (s : String) : Bool :=
  match s.data with
  | c :: _ => c == '/'
  | [] => false

/-- Rust `Path` equality: same absoluteness and same component list. -/
def pathEqB (a b : String) : Bool :=
  (pathIsAbs a == pathIsAbs b) && (pathComps a == pathComps b)

/-- Rust `Path::new(a).parent() == Some(Path::new(b))`: `a` has at least one
component and dropping its last component yields `b`. -/
def parentIs (a b : String) : Bool :=
  match pathComps a with
  | [] => false
  | cs => (pathIsAbs a == pathIsAbs b) && (cs.dropLast == pathComps b)

/-- Rust `Path::starts_with`: component-wise prefix (same absoluteness). -/
def pathStartsWithB (t root : String) : Bool :=
  (pathIsAbs t == pathIsAbs root) && (pathComps root).isPrefixOf (pathComps t)

/-- Rust `Path::new(base).join(child)`: an absolute child replaces the base,
otherwise the child is appended after a separator. -/
def rustJoin (base child : String) : String :=
  if pathIsAbs child then child
  else if base == "" then child
  else if base.data.getLast? == some '/' then base ++ child
  else base ++ "/" ++ child

/-- `mountpath` from src/flist/utils.rs: join the name onto the mountpoint
directory and require the joined path's syntactic parent to be the
mountpoint directory (`bail!` otherwise, modelled as `none`). -/
def mountpath (name mountpointPath : String) : Option String :=
  let mp := rustJoin mountpointPath name
  if parentIs mp mountpointPath then some mp else none

/-- Resolve `..` components (what the kernel would do when the path is
actually used), to state where a returned mount path really points. -/
def resolveComps (cs : List String) : List String :=
  cs.foldl (fun acc c => if c == ".." then acc.dropLast else acc ++ [c]) []

/-! ## Mount-table parser (src/storage/mount.rs) -/

/-- `Mount` from src/storage/mount.rs (the `PathBuf` target kept as the raw
string). -/
structure Mount where
  source : String
  target : String
  filesystem : String
  options : String
  dump : Nat
  pass : Nat
deriving DecidableEq, Repr

/-- Rust `str::split_whitespace`: split on whitespace, no empty items. -/
def splitWhitespaceL (s : String) : List String :=
  ((splitPred (fun c => c.isWhitespace) s.data).map String.mk).filter
    (fun w => w != "")

/-- Value of an all-digit character list (kernel-computable counterpart of
`String.toNat?`'s digit loop); `none` on any non-digit. -/
def digitsVal? : List Char → Nat → Option Nat
  | [], acc => some acc
  | c :: rest, acc =>
    if c.isDigit then digitsVal? rest (acc * 10 + (c.toNat - '0'.toNat))
    else none

/-- Kernel-computable counterpart of `String.toNat?`: non-empty, all
digits. -/
def strToNat? (s : String) : Option Nat :=
  match s.data with
  | [] => none
  | cs => digitsVal? cs 0

/-- Rust `str::parse::<u8>()` on a mount-table field: digits only, value
below 256 (a leading `+` sign, which Rust would accept, does not occur in
mount tables). -/
def parseU8 (s : String) : Option Nat :=
  match strToNat? s with
  | some n => if n < 256 then some n else none
  | none => none

/-- `parser_reader` from src/storage/mount.rs, over the list of input lines:
a line with a whitespace-field count other than six is logged and skipped;
a six-field line has its dump and pass fields parsed as `u8`, and a parse
failure aborts the whole function with an error (the `?` operator on
`parts[4].parse()` / `parts[5].parse()`). -/
def parserReader : List String → Except String (List Mount)
  | [] => .ok []
  | l :: rest =>
    match splitWhitespaceL l with
    | [s, t, f, o, dS, pS] =>
      match parseU8 dS, parseU8 pS with
      | some d, some p => (parserReader rest).map (fun ms => Mount.mk s t f o d p :: ms)
      | _, _ => .error l
    | _ => parserReader rest

/-- The `Mount` record a single line contributes, if any: `some` exactly for
six-field lines with numeric dump/pass. -/
def lineMount (l : String) : Option Mount :=
  match splitWhitespaceL l with
  | [s, t, f, o, dS, pS] =>
    match parseU8 dS, parseU8 pS with
    | some d, some p => some (Mount.mk s t f o d p)
    | _, _ => none
  | _ => none

/-- A line that does not abort the parse: either its field count is not six,
or its dump and pass fields both parse. -/
def okLine (l : String) : Bool :=
  match splitWhitespaceL l with
  | [_, _, _, _, dS, pS] => (parseU8 dS).isSome && (parseU8 pS).isSome
  | _ => true

/-! ## Flist download (src/flist/utils.rs)

The world holds the advertised hash (the trimmed text of the `.md5`
sidecar fetched by `hash_of_flist`), the bytes the content URL serves,
and the flist cache directory as a name-to-content map.  The MD5 function
is a parameter (its output taken to be already lowercase).  I/O errors
are not modelled (every branch that the code reaches on the happy path is
kept). -/

/-- State of the outside world as `download_flist` sees it. -/
structure FWorld where
  advertised : String
  body : List Nat
  cache : List (String × List Nat)
deriving DecidableEq, Repr

/-- Look a file up in the cache directory by name. -/
def lookupKV (l : List (String × List Nat)) (k : String) : Option (List Nat) :=
  (l.find? (fun kv => kv.1 == k)).map (fun kv => kv.2)

/-- `fs::rename` of the temp file onto the target name (overwrites). -/
def insertKVF (l : List (String × List Nat)) (k : String) (v : List Nat) :
    List (String × List Nat) :=
  l.filter (fun kv => kv.1 != k) ++ [(k, v)]

/-- `save_flist` from src/flist/utils.rs: write the body to a temp file,
hash the temp file, rename it to the computed hash inside the cache
directory, return that name.  No comparison to the advertised hash is
made. -/
def saveFlist (md5 : List Nat → String) (w : FWorld) : String × FWorld :=
  let h := md5 w.body
  (h, { w with cache := insertKVF w.cache h w.body })

/-- `download_flist` from src/flist/utils.rs: fetch the advertised hash,
return the cache entry of that name if it exists and its content hashes to
the advertised value, otherwise download the body and `save_flist` it. -/
def downloadFlist (md5 : List Nat → String) (w : FWorld) : String × FWorld :=
  match lookupKV w.cache w.advertised with
  | some content =>
    if md5 content == w.advertised then (w.advertised, w)
    else saveFlist md5 w
  | none => saveFlist md5 w

/-! ## Btrfs volume usage (src/storage/pool/btrfs.rs) -/

/-- `QGroupInfo` from src/storage/pool/btrfs.rs (one parsed `btrfs qgroup
show` row). -/
structure QGroupInfo where
  id : String
  rfer : Nat
  excl : Nat
  maxRfer : Option Nat
  maxExcl : Option Nat
deriving DecidableEq, Repr

/-- `BtrfsVolume::usage` from src/storage/pool/btrfs.rs: find the qgroup
whose id is `0/<volume id>`; error if absent; `used` is `max_rfer` when
set, else the recursive directory-size scan (`dir_size`, whose result is
the `dirSize` argument); `size` is `max_rfer.unwrap_or(0)`. -/
def volumeUsage (groups : List QGroupInfo) (volId : Nat) (dirSize : Nat) :
    Except Unit Usage :=
  match groups.find? (fun g => g.id == "0/" ++ toString volId) with
  | none => .error ()
  | some g => .ok (Usage.mk (g.maxRfer.getD 0) (g.maxRfer.getD dirSize))

/-! ## Pool state machine (src/storage/pool/mod.rs)

`Pool<U, D>` with its `Transit` placeholder.  The underlying trait
operations `DownPool::up` / `UpPool::down` are oracles; on failure they
hand back a pool value together with the error (`UpError { pool, error }`
/ `DownError { pool, error }`).  `into_up` / `into_down` first check the
current state (panicking on `Transit`, which the model renders as a
`none` result with the pool left in `Transit`). -/

/-- The `Pool` enum: `Up`, `Down`, and the internal `Transit` placeholder. -/
inductive PoolST (U D : Type) where
  | up (u : U)
  | down (d : D)
  | transit
deriving DecidableEq, Repr

/-- `Pool::into_up`: already-up pools are returned as is; otherwise the value
is moved to `Transit`, `up()` is attempted, and the slot is refilled with
the success value or the pool the failure handed back.  `none` models the
`unreachable!` panic on a `Transit` input. -/
def intoUpP {U D E : Type} (upFn : D → Except (D × E) U) :
    PoolST U D → PoolST U D × Option (Except E U)
  | .up u => (.up u, some (.ok u))
  | .down d =>
    match upFn d with
    | .ok u => (.up u, some (.ok u))
    | .error de => (.down de.1, some (.error de.2))
  | .transit => (.transit, none)

/-- `Pool::into_down`, symmetric to `intoUpP`. -/
def intoDownP {U D E : Type} (downFn : U → Except (U × E) D) :
    PoolST U D → PoolST U D × Option (Except E D)
  | .down d => (.down d, some (.ok d))
  | .up u =>
    match downFn u with
    | .ok d => (.down d, some (.ok d))
    | .error ue => (.up ue.1, some (.error ue.2))
  | .transit => (.transit, none)

/-- `Pool::name`, defined in both proper states (`unreachable!` on
`Transit`, modelled as `none`). -/
def poolNameOf {U D : Type} (nU : U → String) (nD : D → String) :
    PoolST U D → Option String
  | .up u => some (nU u)
  | .down d => some (nD d)
  | .transit => none

/-- `Pool::size`, defined in both proper states. -/
def poolSizeOf {U D : Type} (sU : U → Nat) (sD : D → Nat) :
    PoolST U D → Option Nat
  | .up u => some (sU u)
  | .down d => some (sD d)
  | .transit => none

/-! ## Storage manager model (src/storage/manager/mod.rs)

`StorageManager` is generic over the `UpPool` / `DownPool` traits; the
model abstracts a pool by its name, declared device size, byte usage
while mounted, volume list, up/down state, and an oracle telling whether
a bring-up attempt would succeed (`into_up` restores the `Down` state on
failure, proved separately for the state machine).  A volume is its name
and quota limit. -/

/-- A volume as the manager sees it: name and current quota limit. -/
structure MVol where
  name : String
  limit : Option Nat
deriving DecidableEq, Repr

/-- Abstract pool state for the manager model. -/
structure MPool where
  name : String
  size : Nat
  used : Nat
  vols : List MVol
  isUp : Bool
  upOk : Bool
deriving DecidableEq, Repr

/-- `UpPool::usage` of the abstract pool: device size and consumed bytes. -/
def MPool.usage (p : MPool) : Usage :=
  Usage.mk p.size p.used

/-- `UpPool::volume(name)` of the abstract pool: first volume of that name. -/
def MPool.findVol (p : MPool) (name : String) : Option MVol :=
  p.vols.find? (fun v => v.name == name)

/-- `StorageManager::volume_lookup`: scan the pools in order, considering
only `Up` ones; first volume of the given name wins; `none` is the
`NotFound` error. -/
def volumeLookup : List MPool → String → Option MVol
  | [], _ => none
  | p :: rest, name =>
    if p.isUp then
      match p.findVol name with
      | some v => some v
      | none => volumeLookup rest name
    else volumeLookup rest name

/-- First pass of `StorageManager::allocate`: index of the first `Up` pool
whose `usage().enough_for(size)` holds. -/
def firstUpWithSpace (size : Nat) : List MPool → Option Nat
  | [] => none
  | p :: rest =>
    if p.isUp && p.usage.enoughFor size then some 0
    else (firstUpWithSpace size rest).map (fun i => i + 1)

/-- Second pass of `StorageManager::allocate`: skip pools that are `Up` or
whose declared size is below the request; bring the first remaining
candidate up — on failure the pool stays `Down` (restored by `into_up`)
and the scan continues.  Returns the chosen index and the updated pools;
`none` is `NoEnoughSpaceLeft`. -/
def allocateDown (size : Nat) : List MPool → Option Nat × List MPool
  | [] => (none, [])
  | p :: rest =>
    if p.size < size || p.isUp then
      let r := allocateDown size rest
      (r.1.map (fun i => i + 1), p :: r.2)
    else if p.upOk then (some 0, { p with isUp := true } :: rest)
    else
      let r := allocateDown size rest
      (r.1.map (fun i => i + 1), p :: r.2)

/-- `StorageManager::allocate`: first pass over `Up` pools, then the `Down`
pass. -/
def allocate (pools : List MPool) (size : Nat) : Option Nat × List MPool :=
  match firstUpWithSpace size pools with
  | some i => (some i, pools)
  | none => allocateDown size pools

/-- Errors of the manager operations modelled here. -/
inductive MErr where
  | invalidSize (size : Nat)
  | noEnoughSpaceLeft
  | volumeAlreadyExists
  | noDeviceLeft
  | upFailed
deriving DecidableEq, Repr

/-- `StorageManager::volume_create`: reject `size == 0` first; then the
idempotency lookup; then allocation, `volume_create` on the chosen pool
and `limit(Some(size))`. -/
def volumeCreate (pools : List MPool) (name : String) (size : Nat) :
    Except MErr MVol × List MPool :=
  if size == 0 then (.error (.invalidSize size), pools)
  else
    match volumeLookup pools name with
    | some v => (.ok v, pools)
    | none =>
      match allocate pools size with
      | (none, pools2) => (.error .noEnoughSpaceLeft, pools2)
      | (some i, pools2) =>
        match pools2.get? i with
        | none => (.error .noEnoughSpaceLeft, pools2)
        | some p =>
          if (p.findVol name).isSome then (.error .volumeAlreadyExists, pools2)
          else
            (.ok (MVol.mk name (some size)),
             pools2.set i { p with vols := p.vols ++ [MVol.mk name (some size)] })

/-- `StorageManager::device_allocate` over the HDD pools: skip pools that
are `Up` or below the minimum size; bring the candidate up (`into_up` —
its failure aborts the whole call via `?`, the pool restored to `Down`);
if a `zdb` volume already exists, skip the pool and leave it `Up`; else
create `zdb` and return the pool's index.  Exhaustion is `NoDeviceLeft`. -/
def deviceAllocate (min : Nat) : List MPool → Except MErr Nat × List MPool
  | [] => (.error .noDeviceLeft, [])
  | p :: rest =>
    if p.isUp || p.size < min then
      let r := deviceAllocate min rest
      (r.1.map (fun i => i + 1), p :: r.2)
    else if !p.upOk then (.error .upFailed, p :: rest)
    else
      let p2 := { p with isUp := true }
      if (p2.findVol "zdb").isSome then
        let r := deviceAllocate min rest
        (r.1.map (fun i => i + 1), p2 :: r.2)
      else
        (.ok 0, { p2 with vols := p2.vols ++ [MVol.mk "zdb" none] } :: rest)

/-! ## Flist mount garbage collection (src/flist/mounts.rs) -/

/-- `MountInfo` from src/flist/mounts.rs (one `findmnt -J` record). -/
structure MountInfo where
  target : String
  source : String
  fstype : String
  options : String
deriving DecidableEq, Repr

/-- Rust `str::parse::<i64>()`: optional sign, digits, 64-bit range. -/
def parseI64 (s : String) : Option Int :=
  let signed : Int × List Char :=
    match s.data with
    | '-' :: r => (-1, r)
    | '+' :: r => (1, r)
    | r => (1, r)
  match (match signed.2 with | [] => none | cs => digitsVal? cs 0) with
  | none => none
  | some n =>
    let v : Int := signed.1 * n
    if -(2 ^ 63) ≤ v ∧ v ≤ 2 ^ 63 - 1 then some v else none

/-- `OverlayInfo` from src/flist/mounts.rs. -/
structure OverlayInfo where
  lowerDir : String
  upperDir : String
  workDir : String
deriving DecidableEq, Repr

/-- Split a character list at the first `=` (Rust `splitn(2, '=')`):
the key and, when a `=` occurs, the unsplit remainder. -/
def splitFirstEq : List Char → List Char × Option (List Char)
  | [] => ([], none)
  | c :: rest =>
    if c == '=' then ([], some rest)
    else
      let r := splitFirstEq rest
      (c :: r.1, r.2)

/-- Rust `splitn(2, '=')` on an option item: key, and the unsplit rest. -/
def kvOf (part : String) : List String :=
  match splitFirstEq part.data with
  | (k, none) => [String.mk k]
  | (k, some v) => [String.mk k, String.mk v]

/-- `MountInfo::as_overlay`: scan the comma-separated options for
`lowerdir`, `upperdir`, `workdir` (later items overwrite); all three must
be non-empty. -/
def asOverlay (m : MountInfo) : Option OverlayInfo :=
  let r := ((splitChar ',' m.options.data).map String.mk).foldl
    (fun (acc : String × String × String) part =>
      match kvOf part with
      | [k, v] =>
        if k == "lowerdir" then (v, acc.2.1, acc.2.2)
        else if k == "upperdir" then (acc.1, v, acc.2.2)
        else if k == "workdir" then (acc.1, acc.2.1, v)
        else acc
      | _ => acc)
    ("", "", "")
  if r.1 == "" || r.2.1 == "" || r.2.2 == "" then none
  else some (OverlayInfo.mk r.1 r.2.1 r.2.2)

/-- `HashMap::insert` on the pid-keyed map (overwrites an existing key). -/
def insertKVI (acc : List (Int × MountInfo)) (pid : Int) (m : MountInfo) :
    List (Int × MountInfo) :=
  acc.filter (fun kv => kv.1 != pid) ++ [(pid, m)]

/-- `HashMap::remove` on the pid-keyed map. -/
def removeKVI (acc : List (Int × MountInfo)) (pid : Int) :
    List (Int × MountInfo) :=
  acc.filter (fun kv => kv.1 != pid)

/-- First loop of `clean_unused_mounts`: insert every ro-base mount into the
pid-keyed map; `as_g8ufs` failure (`?`) aborts the whole function. -/
def buildRo : List MountInfo → List (Int × MountInfo) →
    Option (List (Int × MountInfo))
  | [], acc => some acc
  | m :: rest, acc =>
    match parseI64 m.source with
    | none => none
    | some pid => buildRo rest (insertKVI acc pid m)

/-- One iteration of the mark loop of `clean_unused_mounts`, yielding
`none` on a `?`-propagated parse failure, `some none` when nothing is
unmarked, and `some (some pid)` when `pid` is removed from the candidate
map: a g8ufs named mount contributes its own source pid; an overlay named
mount contributes the pid of the first mount-table entry whose target
equals its `lowerdir` (no entry: nothing); other fstypes contribute
nothing. -/
def stepPid (all : List MountInfo) (n : MountInfo) : Option (Option Int) :=
  if n.fstype == "fuse.g8ufs" then
    match parseI64 n.source with
    | none => none
    | some pid => some (some pid)
  else if n.fstype == "overlay" then
    match asOverlay n with
    | none => none
    | some ov =>
      match all.filter (fun mnt => pathEqB ov.lowerDir mnt.target) with
      | [] => some none
      | m0 :: _ =>
        match parseI64 m0.source with
        | none => none
        | some pid => some (some pid)
  else some none

/-- Second loop of `clean_unused_mounts`: run `stepPid` for every named
mount, removing marked pids from the candidate map. -/
def markNamed (all : List MountInfo) : List MountInfo →
    List (Int × MountInfo) → Option (List (Int × MountInfo))
  | [], acc => some acc
  | n :: rest, acc =>
    match stepPid all n with
    | none => none
    | some none => markNamed all rest acc
    | some (some pid) => markNamed all rest (removeKVI acc pid)

/-- `clean_unused_mounts` from src/flist/mounts.rs: collect the g8ufs
mounts under `root` whose target is a direct child of `ro` into a
pid-keyed candidate map; unmark the pid every named mount (direct child
of `mountpoint`) depends on; unmount and remove every candidate left.
Returns the list of mounts swept (umount / remove_dir failures are only
logged); `none` models a `?`-propagated parse error. -/
def cleanUnusedMounts (all : List MountInfo) (root ro mountpoint : String) :
    Option (List MountInfo) :=
  let ros := (all.filter (fun m => pathStartsWithB m.target root)).filter
    (fun m => parentIs m.target ro && (m.fstype == "fuse.g8ufs"))
  match buildRo ros [] with
  | none => none
  | some roTargets =>
    let named := all.filter (fun m => parentIs m.target mountpoint)
    match markNamed all named roTargets with
    | none => none
    | some remaining => some (remaining.map (fun kv => kv.2))

/-- An engine-owned read-only base mount: a g8ufs mount under `root` whose
target is a direct child of the `ro` directory. -/
def isBaseB (root ro : String) (m : MountInfo) : Bool :=
  pathStartsWithB m.target root
    && (parentIs m.target ro && (m.fstype == "fuse.g8ufs"))

/-- A named mount: target a direct child of the `mountpoint` directory. -/
def isNamedB (mountpoint : String) (n : MountInfo) : Bool :=
  parentIs n.target mountpoint

/-- The claim's dependency relation: a g8ufs named mount depends on the base
with the same backing pid; an overlay named mount depends on the base
whose target equals its `lowerdir` option. -/
def dependsOnB (n b : MountInfo) : Bool :=
  ((n.fstype == "fuse.g8ufs") && (parseI64 n.source == parseI64 b.source))
  || ((n.fstype == "overlay")
      && (asOverlay n).any (fun ov => pathEqB ov.lowerDir b.target))

/-- Index of the first `Down` pool whose declared size satisfies the request
and whose bring-up attempt succeeds (the pool `allocate`'s second pass
settles on). -/
def firstDownOk (size : Nat) : List MPool → Option Nat
  | [] => none
  | p :: rest =>
    if !p.isUp && decide (size ≤ p.size) && p.upOk then some 0
    else (firstDownOk size rest).map (fun i => i + 1)

/-- Every `Down` pool of at least the given size brought `Up` (the pool
state `device_allocate` leaves behind when it exhausts its scan). -/
def bringCandidatesUp (min : Nat) (pools : List MPool) : List MPool :=
  pools.map (fun p =>
    if !p.isUp && decide (min ≤ p.size) then { p with isUp := true } else p)

/-- The backing pid of a mount whose source parses (0 as a dummy). -/
def pidOf (m : MountInfo) : Int :=
  (parseI64 m.source).getD 0

/-- The engine-owned ro-base mounts of a mount table. -/
def basesOf (root ro : String) (all : List MountInfo) : List MountInfo :=
  all.filter (fun m => isBaseB root ro m)

/-- The candidate map `clean_unused_mounts` builds before the mark pass. -/
def basesKV (root ro : String) (all : List MountInfo) : List (Int × MountInfo) :=
  (basesOf root ro all).map (fun m => (pidOf m, m))

/-! ## Theorems -/

/-- C6: `Usage::enough_for` uses a strict inequality: whenever the u64
addition does not wrap, `enough_for(s)` holds iff `used + s < size`
(strictly); in particular `Usage { size := 100, used := 95 }` does not
have enough room for 5 but does for 4. -/
theorem c6_enough_for_strict :
    (∀ (u : Usage) (s : Nat), u.used + s < U64SIZE →
      (u.enoughFor s = true ↔ u.used + s < u.size))
    ∧ (Usage.mk 100 95).enoughFor 5 = false
    ∧ (Usage.mk 100 95).enoughFor 4 = true := by
  refine ⟨fun u s h => ?_, by decide, by decide⟩
  simp [Usage.enoughFor, Nat.mod_eq_of_lt h]

/-- Witness for C6 at a concrete input. -/
theorem c6_enough_for_strict_witness :
    (Usage.mk 100 95).enoughFor 4 = true :=
  (c6_enough_for_strict.1 (Usage.mk 100 95) 4 (by decide)).mpr (by decide)

/-- C9 (code bug): `mountpath` accepts the single name `..` — the joined
path `mountpoint/..` has the mountpoint itself as its syntactic parent,
so the containment check passes although the path resolves to the
mountpoint's parent directory, outside the mountpoint.  The claim's
examples (`../evil`, a separator, the empty name) are rejected, and a
plain name yields exactly `mountpoint/name`. -/
theorem c9_mountpath_dotdot_escapes :
    mountpath ".." "/var/cache/modules/flistd/mountpoint"
      = some "/var/cache/modules/flistd/mountpoint/.."
    ∧ resolveComps (pathComps "/var/cache/modules/flistd/mountpoint/..")
      = pathComps "/var/cache/modules/flistd"
    ∧ mountpath "../evil" "/var/cache/modules/flistd/mountpoint" = none
    ∧ mountpath "" "/var/cache/modules/flistd/mountpoint" = none
    ∧ mountpath "a/b" "/var/cache/modules/flistd/mountpoint" = none
    ∧ mountpath "app" "/var/cache/modules/flistd/mountpoint"
      = some "/var/cache/modules/flistd/mountpoint/app" := by
  refine ⟨rfl, by decide, rfl, rfl, rfl, rfl⟩

/-- C3: a failed pool state transition restores the pre-transition state:
when `DownPool::up` fails (handing its pool back unchanged, as the trait
contract requires), `Pool::into_up` leaves the slot holding the original
`Down` value and surfaces the error, and symmetrically for
`Pool::into_down`; after either operation on a non-`Transit` pool the
slot is never left in `Transit`, and `name()` / `size()` remain
answerable. -/
theorem c3_transition_failure_restores
    {U D E : Type} (upFn : D → Except (D × E) U) (downFn : U → Except (U × E) D)
    (nU : U → String) (nD : D → String) (sU : U → Nat) (sD : D → Nat)
    (d : D) (u : U) (e eDown : E)
    (hu : upFn d = .error (d, e)) (hd : downFn u = .error (u, eDown)) :
    intoUpP upFn (.down d) = (.down d, some (.error e))
    ∧ intoDownP downFn (.up u) = (.up u, some (.error eDown))
    ∧ (∀ p : PoolST U D, p ≠ .transit →
        (intoUpP upFn p).1 ≠ .transit ∧ (intoDownP downFn p).1 ≠ .transit)
    ∧ (∀ p : PoolST U D, p ≠ .transit →
        (poolNameOf nU nD (intoUpP upFn p).1).isSome = true
        ∧ (poolSizeOf sU sD (intoUpP upFn p).1).isSome = true
        ∧ (poolNameOf nU nD (intoDownP downFn p).1).isSome = true
        ∧ (poolSizeOf sU sD (intoDownP downFn p).1).isSome = true) := by
  have hUp : ∀ p : PoolST U D, p ≠ .transit → (intoUpP upFn p).1 ≠ .transit := by
    intro p hp
    cases p with
    | up u2 => simp [intoUpP]
    | down d2 => rcases h2 : upFn d2 with u3 | de <;> simp [intoUpP, h2]
    | transit => exact absurd rfl hp
  have hDown : ∀ p : PoolST U D, p ≠ .transit → (intoDownP downFn p).1 ≠ .transit := by
    intro p hp
    cases p with
    | up u2 => rcases h2 : downFn u2 with d3 | ue <;> simp [intoDownP, h2]
    | down d2 => simp [intoDownP]
    | transit => exact absurd rfl hp
  have hName : ∀ q : PoolST U D, q ≠ .transit →
      (poolNameOf nU nD q).isSome = true := by
    intro q hq
    cases q with
    | up u2 => simp [poolNameOf]
    | down d2 => simp [poolNameOf]
    | transit => exact absurd rfl hq
  have hSize : ∀ q : PoolST U D, q ≠ .transit →
      (poolSizeOf sU sD q).isSome = true := by
    intro q hq
    cases q with
    | up u2 => simp [poolSizeOf]
    | down d2 => simp [poolSizeOf]
    | transit => exact absurd rfl hq
  refine ⟨by simp [intoUpP, hu], by simp [intoDownP, hd],
    fun p hp => ⟨hUp p hp, hDown p hp⟩,
    fun p hp => ⟨hName _ (hUp p hp), hSize _ (hUp p hp),
      hName _ (hDown p hp), hSize _ (hDown p hp)⟩⟩

/-- Witness for C3 at a concrete instantiation. -/
theorem c3_transition_failure_restores_witness :
    intoUpP (fun d : Nat => (Except.error (d, 0) : Except (Nat × Nat) Nat)) (.down 7)
      = (.down 7, some (.error 0)) :=
  (c3_transition_failure_restores
    (fun d : Nat => (Except.error (d, 0) : Except (Nat × Nat) Nat))
    (fun u : Nat => (Except.error (u, 1) : Except (Nat × Nat) Nat))
    (fun _ => "u") (fun _ => "d") (fun _ => 0) (fun _ => 0)
    7 5 0 1 rfl rfl).1

/-- C7 (counterexample): with a quota limit set, `BtrfsVolume::usage`
reports the quota limit `max_rfer` as the used figure, not the
reference-byte count `rfer` — on the qgroup row
`0/256 rfer 1732771840 max_rfer 107374182400` the reported used figure is
107374182400, not 1732771840. -/
theorem c7_usage_counterexample :
    volumeUsage
      [QGroupInfo.mk "0/256" 1732771840 1732771840 (some 107374182400) none]
      256 0
      = .ok (Usage.mk 107374182400 107374182400)
    ∧ (107374182400 : Nat) ≠ 1732771840 := by
  exact ⟨by decide, by decide⟩

/-- C7 (amended): `volume.usage()` returns as its used figure the volume's
quota limit (`max_rfer`) when a limit is set, and falls back to the full
recursive directory-size scan exactly when no quota limit is set on its
quota group. -/
theorem c7_usage_quota_or_dir_scan (groups : List QGroupInfo)
    (volId dirSize : Nat) (g : QGroupInfo)
    (h : groups.find? (fun g2 => g2.id == "0/" ++ toString volId) = some g) :
    volumeUsage groups volId dirSize
      = .ok (Usage.mk (g.maxRfer.getD 0) (g.maxRfer.getD dirSize))
    ∧ (∀ l, g.maxRfer = some l →
        volumeUsage groups volId dirSize = .ok (Usage.mk l l))
    ∧ (g.maxRfer = none →
        volumeUsage groups volId dirSize = .ok (Usage.mk 0 dirSize)) := by
  refine ⟨by simp [volumeUsage, h], fun l hl => ?_, fun hn => ?_⟩
  · simp [volumeUsage, h, hl]
  · simp [volumeUsage, h, hn]

/-- Witness for C7's amended theorem at a concrete input. -/
theorem c7_usage_quota_or_dir_scan_witness :
    volumeUsage [QGroupInfo.mk "0/262" 60463501312 60463501312 none none] 262 777
      = .ok (Usage.mk 0 777) :=
  (c7_usage_quota_or_dir_scan
    [QGroupInfo.mk "0/262" 60463501312 60463501312 none none] 262 777
    (QGroupInfo.mk "0/262" 60463501312 60463501312 none none)
    (by decide)).2.2 rfl

/-- C8 (counterexample): a six-field line whose dump field is not numeric
makes the whole parse return an error instead of being skipped. -/
theorem c8_parser_counterexample :
    parserReader ["a b c d x 0"] = .error "a b c d x 0" := by decide

/-- C8 (amended): the parser is total over inputs whose six-field lines
carry numeric dump/pass values: each well-formed six-field line produces
one `Mount` record, every line with a field count other than six is
logged and skipped, but a six-field line whose dump or pass does not
parse as a `u8` aborts the whole parse with an error. -/
theorem c8_parser_skips_and_collects (lines : List String)
    (h : ∀ l ∈ lines, okLine l = true) :
    parserReader lines = .ok (lines.filterMap lineMount) := by
  induction lines with
  | nil => rfl
  | cons l rest ih =>
    have hl : okLine l = true := h l (List.mem_cons_self l rest)
    have hrest := ih (fun l2 m => h l2 (List.mem_cons_of_mem l m))
    simp only [parserReader, List.filterMap_cons]
    unfold okLine at hl
    unfold lineMount
    rcases hsp : splitWhitespaceL l with _ | ⟨s, _ | ⟨t, _ | ⟨f, _ | ⟨o, _ | ⟨dS, _ | ⟨pS, _ | _⟩⟩⟩⟩⟩⟩ <;>
      rw [hsp] at hl <;> simp only [hsp] <;> try exact hrest
    have hl2 : ((parseU8 dS).isSome && (parseU8 pS).isSome) = true := hl
    rcases hd : parseU8 dS with _ | d
    · rw [hd] at hl2
      simp at hl2
    · rcases hp : parseU8 pS with _ | p
      · rw [hp] at hl2
        simp at hl2
      · simp only [hd, hp]
        rw [hrest]
        rfl

/-- Witness for C8's amended theorem on a concrete input with one
malformed (two-field) line that is skipped. -/
theorem c8_parser_skips_and_collects_witness :
    parserReader ["proc /proc proc rw 0 0", "malformed line",
        "sys /sys sysfs rw,relatime 0 0"]
      = .ok (["proc /proc proc rw 0 0", "malformed line",
        "sys /sys sysfs rw,relatime 0 0"].filterMap lineMount) :=
  c8_parser_skips_and_collects _ (by decide)

/-- Looking up the just-renamed name finds the just-written content. -/
theorem lookupKV_insertKVF (l : List (String × List Nat)) (k : String)
    (v : List Nat) : lookupKV (insertKVF l k v) k = some v := by
  have hnone : (l.filter (fun kv => kv.1 != k)).find? (fun kv => kv.1 == k)
      = none := by
    rw [List.find?_eq_none]
    intro x hx
    have hx2 := List.of_mem_filter hx
    simp only [bne_iff_ne, ne_eq] at hx2
    simp [hx2]
  unfold lookupKV insertKVF
  rw [List.find?_append, hnone]
  simp

/-- C5 (counterexample): a download whose body hashes to a value different
from the advertised `.md5` hash does not fail: the file is renamed into
the cache under the computed hash and that path is returned. -/
theorem c5_download_counterexample :
    downloadFlist (fun b => if b == [1, 2] then "aa" else "bb")
        (FWorld.mk "ff" [1, 2] [])
      = ("aa", FWorld.mk "ff" [1, 2] [("aa", [1, 2])])
    ∧ (fun b : List Nat => if b == [1, 2] then "aa" else "bb") [1, 2] ≠ "ff" := by
  exact ⟨by decide, by decide⟩

/-- C5 (amended): after a cache miss (or stale cache entry) the fetched
body is renamed into the cache under its own computed hash — never
verified against the advertised hash — and that name is returned, so the
cache file's name equals the hash of its content, and it equals the
advertised hash exactly when the two hashes agree; a cache hit whose
content verifies is returned unchanged under the advertised name. -/
theorem c5_download_names_computed_hash (md5 : List Nat → String) (w : FWorld) :
    ((∀ c, lookupKV w.cache w.advertised = some c → md5 c ≠ w.advertised) →
      downloadFlist md5 w
        = (md5 w.body, { w with cache := insertKVF w.cache (md5 w.body) w.body })
      ∧ lookupKV (downloadFlist md5 w).2.cache (md5 w.body) = some w.body
      ∧ (md5 w.body = w.advertised → (downloadFlist md5 w).1 = w.advertised))
    ∧ (∀ c, lookupKV w.cache w.advertised = some c → md5 c = w.advertised →
        downloadFlist md5 w = (w.advertised, w)) := by
  constructor
  · intro hmiss
    have hsave : downloadFlist md5 w
        = (md5 w.body,
           { w with cache := insertKVF w.cache (md5 w.body) w.body }) := by
      unfold downloadFlist saveFlist
      rcases hc : lookupKV w.cache w.advertised with _ | c
      · rfl
      · have hne := hmiss c hc
        simp [hne]
    refine ⟨hsave, ?_, fun he => by simp [hsave, he]⟩
    rw [hsave]
    exact lookupKV_insertKVF w.cache (md5 w.body) w.body
  · intro c hc he
    unfold downloadFlist
    rw [hc]
    simp [he]

/-- Witness for C5's amended theorem: a matching download lands in the
cache under exactly the advertised name. -/
theorem c5_download_names_computed_hash_witness :
    downloadFlist (fun b => if b == [3] then "cc" else "dd")
        (FWorld.mk "cc" [3] [])
      = ("cc", FWorld.mk "cc" [3] [("cc", [3])]) :=
  ((c5_download_names_computed_hash (fun b => if b == [3] then "cc" else "dd")
    (FWorld.mk "cc" [3] [])).1
    (fun c hc => by simp [lookupKV] at hc)).1

/-- C2 (counterexample): `volume_create` rejects `size == 0` before the
idempotency lookup, so `volume_create("v", 0)` on an existing volume `v`
returns `InvalidSize` instead of the existing volume. -/
theorem c2_volume_create_zero_size_counterexample :
    volumeCreate [MPool.mk "p1" 100 0 [MVol.mk "v" (some 10)] true true] "v" 0
      = (.error (.invalidSize 0),
         [MPool.mk "p1" 100 0 [MVol.mk "v" (some 10)] true true])
    ∧ volumeLookup [MPool.mk "p1" 100 0 [MVol.mk "v" (some 10)] true true] "v"
      = some (MVol.mk "v" (some 10)) := by
  exact ⟨by decide, by decide⟩

/-- C2 (amended): for every nonzero requested size, `volume_create` on a
name that already has a volume on some `Up` SSD pool returns the existing
volume unchanged — no error, no resize, no pool state change; a zero
size is rejected before the existence lookup. -/
theorem c2_volume_create_idempotent_nonzero (pools : List MPool)
    (name : String) (size : Nat) (v : MVol) (hs : size ≠ 0)
    (hv : volumeLookup pools name = some v) :
    volumeCreate pools name size = (.ok v, pools) := by
  have h0 : (size == 0) = false := by simpa using hs
  simp [volumeCreate, h0, hv]

/-- Witness for C2's amended theorem: creating `v` again with a larger
size returns the existing volume still limited to 10. -/
theorem c2_volume_create_idempotent_nonzero_witness :
    volumeCreate [MPool.mk "p1" 100 0 [MVol.mk "v" (some 10)] true true] "v" 20
      = (.ok (MVol.mk "v" (some 10)),
         [MPool.mk "p1" 100 0 [MVol.mk "v" (some 10)] true true]) :=
  c2_volume_create_idempotent_nonzero _ _ _ _ (by decide) (by decide)

/-- The down pass of `allocate` settles on the first `Down` pool of
sufficient declared size whose bring-up succeeds, marking exactly that
pool `Up`. -/
theorem allocateDown_of_firstDownOk (size : Nat) :
    ∀ (pools : List MPool) (j : Nat) (p : MPool),
      firstDownOk size pools = some j → pools.get? j = some p →
      allocateDown size pools = (some j, pools.set j { p with isUp := true }) := by
  intro pools
  induction pools with
  | nil => intro j p hj; simp [firstDownOk] at hj
  | cons q rest ih =>
    intro j p hj hg
    by_cases hc : (!q.isUp && decide (size ≤ q.size) && q.upOk) = true
    · rw [firstDownOk, if_pos hc] at hj
      cases hj
      simp only [List.get?] at hg
      cases hg
      rw [Bool.and_eq_true, Bool.and_eq_true] at hc
      obtain ⟨⟨ha, hb⟩, hup⟩ := hc
      have h1 : q.isUp = false := by simpa using ha
      have h2 : ¬ q.size < size := Nat.not_lt.mpr (of_decide_eq_true hb)
      simp [allocateDown, h1, h2, hup]
    · rw [firstDownOk, if_neg hc] at hj
      rcases Option.map_eq_some'.mp hj with ⟨j2, hj2, rfl⟩
      simp only [List.get?] at hg
      have hrec := ih j2 p hj2 hg
      by_cases h1 : q.isUp = true
      · simp [allocateDown, h1, hrec, List.set]
      · have h1f : q.isUp = false := by
          cases hqq : q.isUp
          · rfl
          · exact absurd hqq h1
        by_cases h2 : q.size < size
        · simp [allocateDown, h1f, h2, hrec, List.set]
        · have hup : q.upOk = false := by
            cases hqq : q.upOk
            · rfl
            · exact absurd (by
                simp [h1f, hqq, decide_eq_true (Nat.not_lt.mp h2)]) hc
          simp [allocateDown, h1f, h2, hup, hrec, List.set]

/-- The down pass fails with `NoEnoughSpaceLeft` and leaves every pool
untouched when no `Down` pool has sufficient declared size. -/
theorem allocateDown_none (size : Nat) :
    ∀ pools : List MPool, (∀ p ∈ pools, p.isUp = true ∨ p.size < size) →
      allocateDown size pools = (none, pools) := by
  intro pools
  induction pools with
  | nil => intro _; rfl
  | cons q rest ih =>
    intro h
    have hA : (q.size < size || q.isUp) = true := by
      rcases h q (List.mem_cons_self q rest) with h1 | h1
      · simp [h1]
      · simp [h1]
    rw [allocateDown, if_pos hA, ih (fun p hp => h p (List.mem_cons_of_mem q hp))]
    rfl

/-- C1: the allocation policy of `StorageManager::allocate` over the SSD
pools: if some currently-`Up` pool has room (`usage().enough_for(size)`),
the first such pool is returned with no state change; otherwise the first
`Down` pool of sufficient declared size whose bring-up succeeds is
brought `Up` and returned (failed bring-ups are skipped, their pools left
`Down`); and when no `Up` pool has room and no `Down` pool has
sufficient declared size, the call fails (`NoEnoughSpaceLeft`) with every
pool's state unchanged. -/
theorem c1_allocate_policy (pools : List MPool) (size : Nat) :
    (∀ i, firstUpWithSpace size pools = some i →
      allocate pools size = (some i, pools))
    ∧ (∀ j p, firstUpWithSpace size pools = none →
        firstDownOk size pools = some j → pools.get? j = some p →
        allocate pools size = (some j, pools.set j { p with isUp := true }))
    ∧ (firstUpWithSpace size pools = none →
        (∀ p ∈ pools, p.isUp = true ∨ p.size < size) →
        allocate pools size = (none, pools)) := by
  refine ⟨fun i hi => by simp [allocate, hi], fun j p hn hj hg => ?_,
    fun hn hall => ?_⟩
  · simp only [allocate, hn]
    exact allocateDown_of_firstDownOk size pools j p hj hg
  · simp only [allocate, hn]
    exact allocateDown_none size pools hall

/-- Witness for C1: a full `Up` pool and a `Down` pool with room — the
`Down` pool is brought up and chosen. -/
theorem c1_allocate_policy_witness :
    allocate [MPool.mk "a" 100 99 [] true true,
        MPool.mk "b" 500 0 [] false true] 10
      = (some 1,
         ([MPool.mk "a" 100 99 [] true true,
           MPool.mk "b" 500 0 [] false true].set 1
           { MPool.mk "b" 500 0 [] false true with isUp := true })) :=
  (c1_allocate_policy
    [MPool.mk "a" 100 99 [] true true, MPool.mk "b" 500 0 [] false true]
    10).2.1 1 (MPool.mk "b" 500 0 [] false true) (by decide) (by decide) rfl

/-- C10: `device_allocate` is not state-preserving on skipped candidates or
exhaustion: when every `Down` HDD pool of sufficient size brings up
successfully but already has a `zdb` volume, the call returns
`NoDeviceLeft` while leaving every such candidate `Up` — each candidate,
identified by its index, ends `Up` even though the call failed. -/
theorem c10_device_allocate_frame_effect (pools : List MPool) (min : Nat)
    (h : ∀ p ∈ pools, p.isUp = false → min ≤ p.size →
      p.upOk = true ∧ (p.findVol "zdb").isSome = true) :
    deviceAllocate min pools = (.error .noDeviceLeft, bringCandidatesUp min pools)
    ∧ (∀ i p, pools.get? i = some p → p.isUp = false → min ≤ p.size →
        (bringCandidatesUp min pools).get? i = some { p with isUp := true }) := by
  constructor
  · induction pools with
    | nil => rfl
    | cons q rest ih =>
      have hrest := ih (fun p hp => h p (List.mem_cons_of_mem q hp))
      by_cases h1 : q.isUp = true
      · simp [deviceAllocate, h1, hrest, bringCandidatesUp, Except.map]
      · have h1f : q.isUp = false := by
          cases hqq : q.isUp
          · rfl
          · exact absurd hqq h1
        by_cases h2 : q.size < min
        · simp [deviceAllocate, h1f, h2, hrest, bringCandidatesUp,
            Nat.not_le.mpr h2, Except.map]
        · have hle : min ≤ q.size := Nat.not_lt.mp h2
          rcases h q (List.mem_cons_self q rest) h1f hle with ⟨hup, hzdb⟩
          have hz2 : (MPool.findVol { q with isUp := true } "zdb").isSome
              = true := hzdb
          simp [deviceAllocate, h1f, h2, hup, hz2, hrest, bringCandidatesUp,
            hle, Except.map]
          exact Option.isSome_iff_ne_none.mp hzdb
  · intro i p hg hpf hple
    unfold bringCandidatesUp
    rw [List.get?_map, hg]
    simp [hpf, hple]

/-- Witness for C10: one `Down` HDD pool with a `zdb` volume — the call
fails with `NoDeviceLeft` but the pool is left `Up`. -/
theorem c10_device_allocate_frame_effect_witness :
    deviceAllocate 100 [MPool.mk "h1" 1000 0 [MVol.mk "zdb" none] false true]
      = (.error .noDeviceLeft,
         bringCandidatesUp 100 [MPool.mk "h1" 1000 0 [MVol.mk "zdb" none] false true]) :=
  (c10_device_allocate_frame_effect
    [MPool.mk "h1" 1000 0 [MVol.mk "zdb" none] false true] 100 (by decide)).1

/-- `!=` on pids is symmetric. -/
theorem intBneComm (a b : Int) : (a != b) = (b != a) := by
  rw [Bool.eq_iff_iff]
  simp only [bne_iff_ne, ne_eq]
  exact not_congr eq_comm

/-- `pathEqB` is symmetric. -/
theorem pathEqB_symm {a b : String} (h : pathEqB a b = true) :
    pathEqB b a = true := by
  simp only [pathEqB, Bool.and_eq_true, beq_iff_eq] at h ⊢
  exact ⟨h.1.symm, h.2.symm⟩

/-- `pathEqB` is transitive. -/
theorem pathEqB_trans {a b c : String} (h1 : pathEqB a b = true)
    (h2 : pathEqB b c = true) : pathEqB a c = true := by
  simp only [pathEqB, Bool.and_eq_true, beq_iff_eq] at h1 h2 ⊢
  exact ⟨h1.1.trans h2.1, h1.2.trans h2.2⟩

/-- With parsable sources, pairwise-distinct pids, and an accumulator
disjoint from them, the insert loop appends one entry per base. -/
theorem buildRo_eq :
    ∀ (l : List MountInfo) (acc : List (Int × MountInfo)),
      (∀ m ∈ l, (parseI64 m.source).isSome = true) →
      List.Pairwise (fun a b => parseI64 a.source ≠ parseI64 b.source) l →
      (∀ m ∈ l, ∀ kv ∈ acc, some kv.1 ≠ parseI64 m.source) →
      buildRo l acc = some (acc ++ l.map (fun m => (pidOf m, m))) := by
  intro l
  induction l with
  | nil => intro acc _ _ _; simp [buildRo]
  | cons m rest ih =>
    intro acc h1 h2 h3
    obtain ⟨pid, hp⟩ :=
      Option.isSome_iff_exists.mp (h1 m (List.mem_cons_self m rest))
    have hfilter : acc.filter (fun kv => kv.1 != pid) = acc := by
      rw [List.filter_eq_self]
      intro kv hkv
      have hne := h3 m (List.mem_cons_self m rest) kv hkv
      rw [hp] at hne
      simp only [bne_iff_ne, ne_eq, decide_eq_true_eq]
      exact fun e => hne (by rw [e])
    have hpair := List.pairwise_cons.mp h2
    have ih2 := ih (acc ++ [(pid, m)])
      (fun m2 hm2 => h1 m2 (List.mem_cons_of_mem _ hm2)) hpair.2
      (by
        intro m2 hm2 kv hkv
        rcases List.mem_append.mp hkv with hkv | hkv
        · exact h3 m2 (List.mem_cons_of_mem _ hm2) kv hkv
        · rcases List.mem_singleton.mp hkv with rfl
          exact fun e => hpair.1 m2 hm2 (hp.trans e))
    simp only [buildRo, hp]
    rw [insertKVI, hfilter, ih2]
    simp [pidOf, hp]

/-- When every step is well-formed, the mark loop filters the candidate
map down to the keys no named mount unmarks. -/
theorem markNamed_eq (all : List MountInfo) :
    ∀ (named : List MountInfo) (acc : List (Int × MountInfo)),
      (∀ n ∈ named, stepPid all n ≠ none) →
      markNamed all named acc
        = some (acc.filter (fun kv =>
            named.all (fun n => stepPid all n != some (some kv.1)))) := by
  intro named
  induction named with
  | nil =>
    intro acc _
    simp [markNamed]
  | cons n rest ih =>
    intro acc h
    rcases hs : stepPid all n with _ | os
    · exact absurd hs (h n (List.mem_cons_self n rest))
    rcases os with _ | pid
    · simp only [markNamed, hs]
      rw [ih acc (fun n2 h2 => h n2 (List.mem_cons_of_mem _ h2))]
      congr 1
      apply List.filter_congr
      intro kv _
      simp [hs]
    · simp only [markNamed, hs]
      rw [ih (removeKVI acc pid) (fun n2 h2 => h n2 (List.mem_cons_of_mem _ h2))]
      congr 1
      rw [removeKVI, List.filter_filter]
      apply List.filter_congr
      intro kv _
      simp only [List.all_cons, hs, Bool.and_comm]
      congr 1
      rw [intBneComm]
      rw [Bool.eq_iff_iff]
      simp [bne_iff_ne]

/-- Bridge: for a base `m` and a well-formed named mount `n`, the mark loop
unmarks `m`'s pid exactly when `n` depends on `m` in the claim's sense. -/
theorem stepPid_eq_iff_depends (all : List MountInfo) (root ro mp : String)
    (W1 : ∀ m ∈ all, isBaseB root ro m = true → (parseI64 m.source).isSome = true)
    (W2 : ∀ m ∈ all, ∀ m2 ∈ all, isBaseB root ro m = true →
      isBaseB root ro m2 = true → parseI64 m.source = parseI64 m2.source →
      m = m2)
    (W5 : ∀ m ∈ all, ∀ m2 ∈ all, pathEqB m.target m2.target = true → m = m2)
    (W6 : ∀ n ∈ all, isNamedB mp n = true → n.fstype = "overlay" →
      ∀ m0 ∈ all, ((asOverlay n).any fun ov => pathEqB ov.lowerDir m0.target) = true →
      isBaseB root ro m0 = false →
      ∀ b ∈ all, isBaseB root ro b = true →
      parseI64 m0.source ≠ parseI64 b.source)
    (m : MountInfo) (hm : m ∈ all) (hbase : isBaseB root ro m = true)
    (n : MountInfo) (hn : n ∈ all) (hnamed : isNamedB mp n = true)
    (hstep : stepPid all n ≠ none) :
    stepPid all n = some (some (pidOf m)) ↔ dependsOnB n m = true := by
  obtain ⟨pm, hpm⟩ := Option.isSome_iff_exists.mp (W1 m hm hbase)
  have hpidm : pidOf m = pm := by simp [pidOf, hpm]
  by_cases hg : n.fstype = "fuse.g8ufs"
  · rcases hns : parseI64 n.source with _ | pn
    · exact absurd (by simp [stepPid, hg, hns]) hstep
    · constructor
      · intro hL
        have hL2 : stepPid all n = some (some pn) := by simp [stepPid, hg, hns]
        rw [hL2] at hL
        have hpn : pn = pidOf m := by simpa using hL
        simp [dependsOnB, hg, hns, hpm, hpidm, hpn]
      · intro hR
        have hR2 : (parseI64 n.source == parseI64 m.source) = true := by
          have hov : (n.fstype == "overlay") = false := by simp [hg]
          simpa [dependsOnB, hg, hov] using hR
        rw [hns, hpm] at hR2
        have : pn = pm := by simpa using hR2
        simp [stepPid, hg, hns, hpidm, this]
  · by_cases hov : n.fstype = "overlay"
    · have hg2 : (n.fstype == "fuse.g8ufs") = false := by simp [hov]
      have hov2 : (n.fstype == "overlay") = true := by simp [hov]
      rcases hasov : asOverlay n with _ | ov
      · exact absurd (by simp [stepPid, hg2, hov2, hasov]) hstep
      rcases hfil : all.filter (fun mnt => pathEqB ov.lowerDir mnt.target)
        with _ | ⟨m0, rest0⟩
      · have hnolow : pathEqB ov.lowerDir m.target = false := by
          cases hq : pathEqB ov.lowerDir m.target
          · rfl
          · exfalso
            have hmem : m ∈ all.filter (fun mnt => pathEqB ov.lowerDir mnt.target) :=
              List.mem_filter.mpr ⟨hm, hq⟩
            rw [hfil] at hmem
            exact absurd hmem (List.not_mem_nil m)
        constructor
        · intro hL
          have : stepPid all n = some none := by
            simp [stepPid, hg2, hov2, hasov, hfil]
          rw [this] at hL
          simp at hL
        · intro hR
          exfalso
          simp [dependsOnB, hg2, hov2, hasov, hnolow] at hR
      · have hm0 : m0 ∈ all ∧ pathEqB ov.lowerDir m0.target = true := by
          have hmem : m0 ∈ all.filter (fun mnt => pathEqB ov.lowerDir mnt.target) := by
            rw [hfil]
            exact List.mem_cons_self m0 rest0
          exact ⟨(List.mem_filter.mp hmem).1, (List.mem_filter.mp hmem).2⟩
        rcases hp0 : parseI64 m0.source with _ | p0
        · exact absurd (by simp [stepPid, hg2, hov2, hasov, hfil, hp0]) hstep
        have hstep2 : stepPid all n = some (some p0) := by
          simp [stepPid, hg2, hov2, hasov, hfil, hp0]
        have hdep : dependsOnB n m = pathEqB ov.lowerDir m.target := by
          simp [dependsOnB, hg2, hov2, hasov]
        rw [hstep2, hdep]
        by_cases hb0 : isBaseB root ro m0 = true
        · constructor
          · intro hL
            have hpp : p0 = pidOf m := by simpa using hL
            have heq : parseI64 m0.source = parseI64 m.source := by
              rw [hp0, hpm]
              exact congrArg some (by rw [hpp, hpidm])
            have hm0m : m0 = m := W2 m0 hm0.1 m hm hb0 hbase heq
            rw [← hm0m]
            exact hm0.2
          · intro hR
            have h1 : pathEqB m0.target m.target = true :=
              pathEqB_trans (pathEqB_symm hm0.2) hR
            have hm0m : m0 = m := W5 m0 hm0.1 m hm h1
            rw [hm0m] at hp0
            rw [hp0] at hpm
            have : p0 = pm := by simpa using hpm
            simp [hpidm, this]
        · have hb0f : isBaseB root ro m0 = false := by
            cases hq : isBaseB root ro m0
            · rfl
            · exact absurd hq hb0
          constructor
          · intro hL
            exfalso
            have hpp : p0 = pidOf m := by simpa using hL
            have hne := W6 n hn hnamed hov m0 hm0.1
              (by simp [hasov, hm0.2]) hb0f m hm hbase
            apply hne
            rw [hp0, hpm]
            exact congrArg some (by rw [hpp, hpidm])
          · intro hR
            exfalso
            have h1 : pathEqB m0.target m.target = true :=
              pathEqB_trans (pathEqB_symm hm0.2) hR
            have hm0m : m0 = m := W5 m0 hm0.1 m hm h1
            rw [hm0m] at hb0f
            rw [hb0f] at hbase
            exact Bool.noConfusion hbase
    · have hg2 : (n.fstype == "fuse.g8ufs") = false := by simp [hg]
      have hov2 : (n.fstype == "overlay") = false := by simp [hov]
      constructor
      · intro hL
        have : stepPid all n = some none := by simp [stepPid, hg2, hov2]
        rw [this] at hL
        simp at hL
      · intro hR
        exfalso
        simp [dependsOnB, hg2, hov2] at hR

/-- C4: `clean_unused_mounts` is a correct mark-and-sweep over the live
mount table.  Under well-formedness of the table — no duplicate records,
distinct targets, engine-owned bases with parsable (and pairwise
distinct) pids, named mounts whose mark step is well formed, and overlay
lowerdirs that do not alias a base pid through a non-base mount — the
function succeeds and sweeps exactly those bases on which no named mount
(direct child of the mountpoint directory) depends: a g8ufs named mount
depends on the base with the same backing pid, an overlay named mount on
the base whose target equals its `lowerdir` option.  The result is a
function of the mount-table list alone (no in-memory history). -/
theorem c4_clean_unused_mounts_mark_sweep (all : List MountInfo)
    (root ro mp : String)
    (hnd : all.Nodup)
    (W1 : ∀ m ∈ all, isBaseB root ro m = true → (parseI64 m.source).isSome = true)
    (W2 : ∀ m ∈ all, ∀ m2 ∈ all, isBaseB root ro m = true →
      isBaseB root ro m2 = true → parseI64 m.source = parseI64 m2.source →
      m = m2)
    (W3 : ∀ n ∈ all, isNamedB mp n = true → stepPid all n ≠ none)
    (W5 : ∀ m ∈ all, ∀ m2 ∈ all, pathEqB m.target m2.target = true → m = m2)
    (W6 : ∀ n ∈ all, isNamedB mp n = true → n.fstype = "overlay" →
      ∀ m0 ∈ all, ((asOverlay n).any fun ov => pathEqB ov.lowerDir m0.target) = true →
      isBaseB root ro m0 = false →
      ∀ b ∈ all, isBaseB root ro b = true →
      parseI64 m0.source ≠ parseI64 b.source) :
    ∃ cleaned, cleanUnusedMounts all root ro mp = some cleaned ∧
      ∀ m, m ∈ cleaned ↔ m ∈ all ∧ isBaseB root ro m = true
        ∧ ¬ ∃ n, n ∈ all ∧ isNamedB mp n = true ∧ dependsOnB n m = true := by
  have hb1 : ∀ m ∈ basesOf root ro all, (parseI64 m.source).isSome = true :=
    fun m hm2 => W1 m (List.mem_filter.mp hm2).1 (List.mem_filter.mp hm2).2
  have hbnd : (basesOf root ro all).Nodup := hnd.filter _
  have hpw : List.Pairwise (fun a b => parseI64 a.source ≠ parseI64 b.source)
      (basesOf root ro all) := by
    refine List.Pairwise.imp_of_mem ?_ hbnd
    intro a b ha hb hab he
    exact hab (W2 a (List.mem_filter.mp ha).1 b (List.mem_filter.mp hb).1
      (List.mem_filter.mp ha).2 (List.mem_filter.mp hb).2 he)
  have hbuild := buildRo_eq (basesOf root ro all) [] hb1 hpw
    (fun m _ kv hkv => absurd hkv (List.not_mem_nil kv))
  rw [List.nil_append] at hbuild
  have hW3 : ∀ n ∈ all.filter (fun x => parentIs x.target mp),
      stepPid all n ≠ none :=
    fun n hn2 => W3 n (List.mem_filter.mp hn2).1 (List.mem_filter.mp hn2).2
  have hmark := markNamed_eq all (all.filter (fun x => parentIs x.target mp))
    ((basesOf root ro all).map (fun m => (pidOf m, m))) hW3
  refine ⟨(((basesOf root ro all).map (fun m => (pidOf m, m))).filter
    (fun kv => (all.filter (fun x => parentIs x.target mp)).all
      (fun n => stepPid all n != some (some kv.1)))).map (fun kv => kv.2),
    ?_, ?_⟩
  · have hros : ((all.filter (fun m => pathStartsWithB m.target root)).filter
        (fun m => parentIs m.target ro && (m.fstype == "fuse.g8ufs")))
        = basesOf root ro all := by
      rw [List.filter_filter]
      apply List.filter_congr
      intro a _
      rw [Bool.eq_iff_iff]
      simp only [isBaseB, Bool.and_eq_true]
      tauto
    unfold cleanUnusedMounts
    rw [hros]
    simp only [hbuild, hmark]
  · intro m
    constructor
    · intro hmc
      rcases List.mem_map.mp hmc with ⟨kv, hkvf, hkv2⟩
      rcases List.mem_filter.mp hkvf with ⟨hkvb, hpred⟩
      rcases List.mem_map.mp hkvb with ⟨b, hb, hkv⟩
      rcases hkv
      rcases hkv2
      have hball := List.mem_filter.mp hb
      refine ⟨hball.1, hball.2, ?_⟩
      rintro ⟨n, hnall, hnn, hdep⟩
      have hnmem : n ∈ all.filter (fun x => parentIs x.target mp) :=
        List.mem_filter.mpr ⟨hnall, hnn⟩
      have hne := (List.all_eq_true.mp hpred) n hnmem
      rw [bne_iff_ne] at hne
      exact hne ((stepPid_eq_iff_depends all root ro mp W1 W2 W5 W6
        b hball.1 hball.2 n hnall hnn (W3 n hnall hnn)).mpr hdep)
    · rintro ⟨hmall, hmbase, hnodep⟩
      have hmb : m ∈ basesOf root ro all := List.mem_filter.mpr ⟨hmall, hmbase⟩
      refine List.mem_map.mpr ⟨(pidOf m, m), ?_, rfl⟩
      refine List.mem_filter.mpr ⟨List.mem_map.mpr ⟨m, hmb, rfl⟩, ?_⟩
      rw [List.all_eq_true]
      intro n hnmem
      rcases List.mem_filter.mp hnmem with ⟨hnall, hnn⟩
      rw [bne_iff_ne]
      intro he
      exact hnodep ⟨n, hnall, hnn,
        (stepPid_eq_iff_depends all root ro mp W1 W2 W5 W6
          m hmall hmbase n hnall hnn (W3 n hnall hnn)).mp he⟩

/-- Witness for C4: a table with one ro base kept alive by a bind-style
g8ufs named mount and one orphaned ro base. -/
theorem c4_clean_unused_mounts_mark_sweep_witness :
    ∃ cleaned,
      cleanUnusedMounts
        [MountInfo.mk "/var/cache/modules/flistd/ro/aaa" "100" "fuse.g8ufs" "ro",
         MountInfo.mk "/var/cache/modules/flistd/ro/bbb" "200" "fuse.g8ufs" "ro",
         MountInfo.mk "/var/cache/modules/flistd/mountpoint/app" "100" "fuse.g8ufs" "ro"]
        "/var/cache/modules/flistd" "/var/cache/modules/flistd/ro"
        "/var/cache/modules/flistd/mountpoint"
      = some cleaned ∧
      ∀ m, m ∈ cleaned ↔
        m ∈ [MountInfo.mk "/var/cache/modules/flistd/ro/aaa" "100" "fuse.g8ufs" "ro",
             MountInfo.mk "/var/cache/modules/flistd/ro/bbb" "200" "fuse.g8ufs" "ro",
             MountInfo.mk "/var/cache/modules/flistd/mountpoint/app" "100" "fuse.g8ufs" "ro"]
        ∧ isBaseB "/var/cache/modules/flistd" "/var/cache/modules/flistd/ro" m = true
        ∧ ¬ ∃ n, n ∈ [MountInfo.mk "/var/cache/modules/flistd/ro/aaa" "100" "fuse.g8ufs" "ro",
             MountInfo.mk "/var/cache/modules/flistd/ro/bbb" "200" "fuse.g8ufs" "ro",
             MountInfo.mk "/var/cache/modules/flistd/mountpoint/app" "100" "fuse.g8ufs" "ro"]
            ∧ isNamedB "/var/cache/modules/flistd/mountpoint" n = true
            ∧ dependsOnB n m = true :=
  c4_clean_unused_mounts_mark_sweep
    [MountInfo.mk "/var/cache/modules/flistd/ro/aaa" "100" "fuse.g8ufs" "ro",
     MountInfo.mk "/var/cache/modules/flistd/ro/bbb" "200" "fuse.g8ufs" "ro",
     MountInfo.mk "/var/cache/modules/flistd/mountpoint/app" "100" "fuse.g8ufs" "ro"]
    "/var/cache/modules/flistd" "/var/cache/modules/flistd/ro"
    "/var/cache/modules/flistd/mountpoint"
    (by decide) (by decide) (by decide) (by decide) (by decide) (by decide)
